import Mathlib

/-!
# Verification of the RealmsPlayerlistBot command-admission and error-escalation layer

Shallow embedding of the core of `main.py` and `common/utils.py`:
prefix resolution (`_get_prefixes`, `realms_playerlist_prefixes`), the global
admission gate (`global_checks`), the error chunking/delivery pipeline
(`error_handle`, `line_split`, `msg_to_owner`), per-context configuration
memoization (`RealmContext.fetch_config`) and embed validation (`embed_check`).

Python sets of strings are modelled as `Finset String`; the `defaultdict(set)`
prefix cache as a total function `Nat → Finset String` whose default value is
`∅`; exceptions as an explicit error type threaded through `Except`; store
fetches are counted explicitly so that "no second fetch happens" is a statement
about a `Nat`.
-/

/-- The configuration record (`GuildConfig` ORM model): the fields the core
reads are the guild id and the set of custom command prefixes. -/
structure GuildConfig where
  guild_id : Nat
  prefixes : Finset String
deriving DecidableEq

/-- Outcome of a `GuildConfig.get` store lookup, as observed by
`_get_prefixes`: either the record, or one of the exception classes that
`realms_playerlist_prefixes` catches. -/
inductive StoreResult where
  | found : GuildConfig → StoreResult
  | doesNotExist : StoreResult
  | configurationError : StoreResult
  | keyError : StoreResult
  | timeoutError : StoreResult
deriving DecidableEq

/-- The exception classes caught by `realms_playerlist_prefixes` (main.py
lines 70-81): `DoesNotExist`, `AttributeError` (the missing-community-context
dispatch artifact), `ConfigurationError`, `KeyError`, `asyncio.TimeoutError`. -/
inductive PrefixErr where
  | doesNotExist : PrefixErr
  | attributeError : PrefixErr
  | configurationError : PrefixErr
  | keyError : PrefixErr
  | timeoutError : PrefixErr
deriving DecidableEq

/-- Models `bot.user.mention`: the rich mention form of the bot's identifier. -/
def userMentionStr (botId : Nat) : String := "<@" ++ toString botId ++ ">"

/-- The plain fallback mention form, written literally in the source as
an f-string: `<@!{bot.user.id}>`. -/
def nickMentionStr (botId : Nat) : String := "<@!" ++ toString botId ++ ">"

/-- Models main.py line 66: the two-element set of mention-style forms,
built from the f-strings for the rich mention and the plain fallback mention
(main.py line 66). -/
def mention_prefixes (botId : Nat) : Finset String :=
  {userMentionStr botId ++ " ", nickMentionStr botId ++ " "}

/-- Models `_get_prefixes` (main.py lines 53-62), with the store and the
`bot.cached_prefixes` defaultdict made explicit.  Returns the result (or the
raised exception), the new cache, and how many store fetches were performed.
The `if prefixes := bot.cached_prefixes[...]` walrus test is Python
truthiness: an empty cached set counts as a miss. -/
def _get_prefixes (store : Nat → StoreResult) (cached : Nat → Finset String)
    (guild : Option Nat) :
    Except PrefixErr (Finset String) × (Nat → Finset String) × Nat :=
  match guild with
  | none => (Except.ok ∅, cached, 0)
  | some g =>
    if cached g = ∅ then
      match store g with
      | StoreResult.found cfg =>
        (Except.ok cfg.prefixes,
          fun g2 => if g2 = g then cfg.prefixes else cached g2, 1)
      | StoreResult.doesNotExist => (Except.error PrefixErr.doesNotExist, cached, 1)
      | StoreResult.configurationError =>
        (Except.error PrefixErr.configurationError, cached, 1)
      | StoreResult.keyError => (Except.error PrefixErr.keyError, cached, 1)
      | StoreResult.timeoutError => (Except.error PrefixErr.timeoutError, cached, 1)
    else (Except.ok (cached g), cached, 0)

/-- The fallback custom-prefix set chosen by each `except` branch of
`realms_playerlist_prefixes` (main.py lines 70-81). -/
def fallbackSet : PrefixErr → Finset String
  | PrefixErr.doesNotExist => ∅
  | PrefixErr.attributeError => {"!?"}
  | PrefixErr.configurationError => ∅
  | PrefixErr.keyError => ∅
  | PrefixErr.timeoutError => ∅

/-- Models `realms_playerlist_prefixes` (main.py lines 65-83), as a function of the
outcome of the inner `_get_prefixes` call: the `try` body on success, the
matching `except` branch otherwise, then the final
`mention_prefixes.union(custom_prefixes)`. -/
def realms_playerlist_prefixes (botId : Nat)
    (outcome : Except PrefixErr (Finset String)) : Finset String :=
  mention_prefixes botId ∪
    (match outcome with
     | Except.ok p => p
     | Except.error e => fallbackSet e)

/-- The full resolver run against an explicit store and cache: performs the
lookup and handles every exception class. -/
def resolve_prefixes (store : Nat → StoreResult) (cached : Nat → Finset String)
    (botId : Nat) (guild : Option Nat) :
    Finset String × (Nat → Finset String) × Nat :=
  match _get_prefixes store cached guild with
  | (r, c2, n) => (realms_playerlist_prefixes botId r, c2, n)

theorem userMention_ne_nickMention (botId : Nat) :
    userMentionStr botId ++ " " ≠ nickMentionStr botId ++ " " := by
  intro h
  have hlen := congrArg String.length h
  have h2 : ("<@" : String).length = 2 := rfl
  have h3 : ("<@!" : String).length = 3 := rfl
  simp [userMentionStr, nickMentionStr, String.length_append, h2, h3] at hlen

theorem mention_mem_left (botId : Nat) :
    userMentionStr botId ++ " " ∈ mention_prefixes botId := by
  simp [mention_prefixes]

theorem mention_mem_right (botId : Nat) :
    nickMentionStr botId ++ " " ∈ mention_prefixes botId := by
  simp [mention_prefixes]

/-- Claim C1. For every outcome of the custom-prefix lookup — success, record
not found, missing community context (`AttributeError`), store not
initialized (`ConfigurationError`), key error, timeout —
`realms_playerlist_prefixes` returns normally (it is a total function of the
outcome), its result contains both mention-style prefixes and hence is
non-empty; the missing-community-context fallback is exactly `{"!?"}` and
every other failure's fallback is the empty set. -/
theorem c1_resolver_total_and_fallbacks :
    (∀ (botId : Nat) (outcome : Except PrefixErr (Finset String)),
        userMentionStr botId ++ " " ∈ realms_playerlist_prefixes botId outcome ∧
        nickMentionStr botId ++ " " ∈ realms_playerlist_prefixes botId outcome ∧
        (realms_playerlist_prefixes botId outcome).Nonempty) ∧
    fallbackSet PrefixErr.attributeError = {"!?"} ∧
    fallbackSet PrefixErr.doesNotExist = ∅ ∧
    fallbackSet PrefixErr.configurationError = ∅ ∧
    fallbackSet PrefixErr.keyError = ∅ ∧
    fallbackSet PrefixErr.timeoutError = ∅ ∧
    (∀ (botId : Nat) (e : PrefixErr),
        realms_playerlist_prefixes botId (Except.error e) =
          mention_prefixes botId ∪ fallbackSet e) := by
  refine ⟨?_, rfl, rfl, rfl, rfl, rfl, ?_⟩
  · intro botId outcome
    refine ⟨?_, ?_, ?_⟩
    · exact Finset.mem_union_left _ (mention_mem_left botId)
    · exact Finset.mem_union_left _ (mention_mem_right botId)
    · exact ⟨_, Finset.mem_union_left _ (mention_mem_left botId)⟩
  · intro botId e
    rfl

/-- Claim C7. For every inbound message with no originating community, the
resolver returns exactly the two mention-derived prefixes — a two-element
set, hence non-empty and containing no cached custom prefixes — and performs
no store lookup, leaving the cache untouched. -/
theorem c7_no_guild_mention_only :
    ∀ (store : Nat → StoreResult) (cached : Nat → Finset String) (botId : Nat),
      resolve_prefixes store cached botId none =
        (mention_prefixes botId, cached, 0) ∧
      mention_prefixes botId =
        {userMentionStr botId ++ " ", nickMentionStr botId ++ " "} ∧
      (mention_prefixes botId).card = 2 ∧
      (mention_prefixes botId).Nonempty := by
  intro store cached botId
  refine ⟨?_, rfl, ?_, ⟨_, mention_mem_left botId⟩⟩
  · simp [resolve_prefixes, _get_prefixes, realms_playerlist_prefixes]
  · exact Finset.card_pair (userMention_ne_nickMention botId)

/-- Claim C5. If a community `g` has no cached prefixes (the `defaultdict`
entry is the empty set) and the store reports `DoesNotExist`, the resolver
returns exactly the mention-style set with no exception, the cache is
returned unchanged (still unpopulated for `g`), and a subsequent resolution
against a store that now holds the record fetches it and picks up its
prefixes. -/
theorem c5_not_found_no_cache (store : Nat → StoreResult)
    (cached : Nat → Finset String) (botId g : Nat)
    (hmiss : cached g = ∅) (hnf : store g = StoreResult.doesNotExist) :
    resolve_prefixes store cached botId (some g) =
      (mention_prefixes botId, cached, 1) ∧
    (∀ (store2 : Nat → StoreResult) (cfg : GuildConfig),
        store2 g = StoreResult.found cfg →
        (resolve_prefixes store2 cached botId (some g)).1 =
          mention_prefixes botId ∪ cfg.prefixes ∧
        (resolve_prefixes store2 cached botId (some g)).2.2 = 1) := by
  constructor
  · simp [resolve_prefixes, _get_prefixes, hmiss, hnf, realms_playerlist_prefixes,
      fallbackSet]
  · intro store2 cfg hfound
    constructor
    · simp [resolve_prefixes, _get_prefixes, hmiss, hfound, realms_playerlist_prefixes]
    · simp [resolve_prefixes, _get_prefixes, hmiss, hfound]

/-- Witness for C5 at community 42 with an everywhere-`DoesNotExist` store
and an empty cache, then a store holding a record with prefixes `{"!?"}`. -/
theorem c5_not_found_no_cache_witness :
    resolve_prefixes (fun _ => StoreResult.doesNotExist) (fun _ => ∅) 9 (some 42) =
      (mention_prefixes 9, fun _ => (∅ : Finset String), 1) ∧
    (∀ (store2 : Nat → StoreResult) (cfg : GuildConfig),
        store2 42 = StoreResult.found cfg →
        (resolve_prefixes store2 (fun _ => ∅) 9 (some 42)).1 =
          mention_prefixes 9 ∪ cfg.prefixes ∧
        (resolve_prefixes store2 (fun _ => ∅) 9 (some 42)).2.2 = 1) :=
  c5_not_found_no_cache (fun _ => StoreResult.doesNotExist) (fun _ => ∅) 9 42
    rfl rfl

/-- Store for the C6 counterexample: community 42's record exists but its
custom prefix set is empty (possible: the migration script's column default
is the empty array). -/
def c6store : Nat → StoreResult := fun _ => StoreResult.found ⟨42, ∅⟩

/-- Initially empty prefix cache for the C6 counterexample. -/
def c6cached : Nat → Finset String := fun _ => (∅ : Finset String)

/-- Claim C6 counterexample. The first resolution for community 42 succeeds
(one fetch) and populates the cache with the record's (empty) prefix set,
yet the second resolution performs another store fetch — because the walrus
truthiness test `if prefixes := bot.cached_prefixes[...]` treats an empty
cached set as a miss.  This falsifies the claim that one successful populate
suppresses all later fetches. -/
theorem c6_counterexample :
    (resolve_prefixes c6store c6cached 9 (some 42)).2.2 = 1 ∧
    (resolve_prefixes c6store
        (resolve_prefixes c6store c6cached 9 (some 42)).2.1 9 (some 42)).2.2 = 1 := by
  constructor <;> rfl

/-- Claim C6 amended. Once a resolution call has fetched a community's
configuration whose prefix set is *non-empty* and populated the cache with
it, a subsequent resolution for that community performs no store fetch and
returns the cached custom prefixes unioned with the mention prefixes, with
the cache unchanged.  (When the fetched prefix set is empty, the cache entry
is indistinguishable from an unpopulated one and a later call fetches
again, as the counterexample shows.) -/
theorem c6_cache_hit_after_populate (store : Nat → StoreResult)
    (cached : Nat → Finset String) (botId g : Nat) (cfg : GuildConfig)
    (hmiss : cached g = ∅) (hfound : store g = StoreResult.found cfg)
    (hne : cfg.prefixes ≠ ∅) :
    (resolve_prefixes store cached botId (some g)).1 =
      mention_prefixes botId ∪ cfg.prefixes ∧
    (resolve_prefixes store cached botId (some g)).2.2 = 1 ∧
    resolve_prefixes store ((resolve_prefixes store cached botId (some g)).2.1)
        botId (some g) =
      (mention_prefixes botId ∪ cfg.prefixes,
        (resolve_prefixes store cached botId (some g)).2.1, 0) := by
  refine ⟨?_, ?_, ?_⟩
  · simp [resolve_prefixes, _get_prefixes, hmiss, hfound, realms_playerlist_prefixes]
  · simp [resolve_prefixes, _get_prefixes, hmiss, hfound]
  · simp [resolve_prefixes, _get_prefixes, hmiss, hfound, hne,
      realms_playerlist_prefixes]

/-- Witness for the amended C6: community 42, record prefixes `{"!?"}`. -/
theorem c6_cache_hit_after_populate_witness :
    (resolve_prefixes (fun _ => StoreResult.found ⟨42, {"!?"}⟩)
        (fun _ => ∅) 9 (some 42)).1 = mention_prefixes 9 ∪ {"!?"} ∧
    (resolve_prefixes (fun _ => StoreResult.found ⟨42, {"!?"}⟩)
        (fun _ => ∅) 9 (some 42)).2.2 = 1 ∧
    resolve_prefixes (fun _ => StoreResult.found ⟨42, {"!?"}⟩)
        ((resolve_prefixes (fun _ => StoreResult.found ⟨42, {"!?"}⟩)
            (fun _ => ∅) 9 (some 42)).2.1) 9 (some 42) =
      (mention_prefixes 9 ∪ {"!?"},
        (resolve_prefixes (fun _ => StoreResult.found ⟨42, {"!?"}⟩)
            (fun _ => ∅) 9 (some 42)).2.1, 0) :=
  c6_cache_hit_after_populate (fun _ => StoreResult.found ⟨42, {"!?"}⟩)
    (fun _ => ∅) 9 42 ⟨42, {"!?"}⟩ rfl rfl (by decide)

/-- The fields of the invocation context that `global_checks` (main.py lines
86-102) reads: `ctx.bot.is_ready()`, `ctx.bot.init_load`, `ctx.guild` (its
id when present), `ctx.author.id`, `ctx.bot.owner.id`, and
`ctx.command.qualified_name`. -/
structure CommandCtx where
  bot_is_ready : Bool
  bot_init_load : Bool
  guild : Option Nat
  author_id : Nat
  owner_id : Nat
  command_qualified_name : String
deriving DecidableEq

/-- Models `global_checks` (main.py lines 86-102), with the `DEV_GUILD_ID`
environment constant made a parameter. -/
def global_checks (dev_guild_id : Nat) (ctx : CommandCtx) : Bool :=
  if !ctx.bot_is_ready then false
  else if ctx.bot_init_load then false
  else
    match ctx.guild with
    | none => false
    | some gid =>
      if ctx.author_id = ctx.owner_id then true
      else
        !(gid = dev_guild_id &&
          !(ctx.command_qualified_name = "help" ∨
            ctx.command_qualified_name = "ping"))

/-- Claim C2. While the readiness flag is false or the init-load flag is true,
`global_checks` rejects every context; once both phases have cleared and a
community is present, the operator is accepted (in particular in the DEV
community for any command), a non-operator in the DEV community whose
command is neither "help" nor "ping" is rejected, and a non-operator in any
non-DEV community is accepted. -/
theorem c2_admission_gate (dev_guild_id : Nat) (ctx : CommandCtx) :
    ((ctx.bot_is_ready = false ∨ ctx.bot_init_load = true) →
      global_checks dev_guild_id ctx = false) ∧
    (∀ gid : Nat, ctx.bot_is_ready = true → ctx.bot_init_load = false →
      ctx.guild = some gid →
      ((ctx.author_id = ctx.owner_id → global_checks dev_guild_id ctx = true) ∧
       (ctx.author_id ≠ ctx.owner_id → gid = dev_guild_id →
        ctx.command_qualified_name ≠ "help" →
        ctx.command_qualified_name ≠ "ping" →
        global_checks dev_guild_id ctx = false) ∧
       (ctx.author_id ≠ ctx.owner_id → gid ≠ dev_guild_id →
        global_checks dev_guild_id ctx = true))) := by
  constructor
  · intro h
    rcases h with h | h <;> simp [global_checks, h]
  · intro gid hready hinit hguild
    refine ⟨?_, ?_, ?_⟩
    · intro hop
      simp [global_checks, hready, hinit, hguild, hop]
    · intro hnop hdev hhelp hping
      simp [global_checks, hready, hinit, hguild, hnop, hdev, hhelp, hping]
    · intro hnop hdev
      simp [global_checks, hready, hinit, hguild, hnop, hdev]

/-- Witness for C2 at concrete contexts: an init-load rejection, an operator
acceptance in the DEV community for a non-allow-listed command, a
non-operator DEV rejection, and a non-operator acceptance elsewhere. -/
theorem c2_admission_gate_witness :
    global_checks 5 ⟨true, true, some 5, 1, 2, "online"⟩ = false ∧
    global_checks 5 ⟨true, false, some 5, 2, 2, "online"⟩ = true ∧
    global_checks 5 ⟨true, false, some 5, 1, 2, "online"⟩ = false ∧
    global_checks 5 ⟨true, false, some 7, 1, 2, "online"⟩ = true := by
  refine ⟨?_, ?_, ?_, ?_⟩
  · exact (c2_admission_gate 5 ⟨true, true, some 5, 1, 2, "online"⟩).1
      (Or.inr rfl)
  · exact (((c2_admission_gate 5 ⟨true, false, some 5, 2, 2, "online"⟩).2
      5 rfl rfl rfl).1) rfl
  · exact (((c2_admission_gate 5 ⟨true, false, some 5, 1, 2, "online"⟩).2
      5 rfl rfl rfl).2.1) (by decide) rfl (by decide) (by decide)
  · exact (((c2_admission_gate 5 ⟨true, false, some 7, 1, 2, "online"⟩).2
      7 rfl rfl rfl).2.2) (by decide) (by decide)

/-- Claim C4 counterexample. A context authored by the operator but with no
originating community (a direct message), after both startup phases have
cleared, is rejected: the `if not ctx.guild` test runs *before* the operator
override, so the operator is not admitted unconditionally. -/
theorem c4_counterexample :
    (⟨true, false, none, 2, 2, "ping"⟩ : CommandCtx).author_id =
      (⟨true, false, none, 2, 2, "ping"⟩ : CommandCtx).owner_id ∧
    global_checks 5 ⟨true, false, none, 2, 2, "ping"⟩ = false := by
  constructor <;> rfl

/-- Claim C4 amended. The operator is accepted for every context whose
readiness flag is true, whose init-load flag is false, and which has an
originating community; with no community even the operator is rejected. -/
theorem c4_operator_accepted (dev_guild_id : Nat) (ctx : CommandCtx)
    (gid : Nat) (hready : ctx.bot_is_ready = true)
    (hinit : ctx.bot_init_load = false) (hguild : ctx.guild = some gid)
    (hop : ctx.author_id = ctx.owner_id) :
    global_checks dev_guild_id ctx = true := by
  simp [global_checks, hready, hinit, hguild, hop]

/-- Witness for the amended C4: the operator in community 5. -/
theorem c4_operator_accepted_witness :
    global_checks 5 ⟨true, false, some 5, 2, 2, "online"⟩ = true :=
  c4_operator_accepted 5 ⟨true, false, some 5, 2, 2, "online"⟩ 5 rfl rfl rfl rfl

/-- The state of a `RealmContext` (common/utils.py lines 179-200) relevant to
`fetch_config`: the context's guild id and the memoized `guild_config`,
initialized to `None` by `__init__`. -/
structure RealmContext where
  guild_id : Nat
  guild_config : Option GuildConfig
deriving DecidableEq

/-- Models `RealmContext.fetch_config` (common/utils.py lines 188-200), with the
store made explicit (the successful `GuildConfig.get` path): returns the
config, the updated context, and how many store fetches were performed.
The `if self.guild_config:` truthiness test distinguishes `None` from a
(always truthy) record instance. -/
def fetch_config (store : Nat → GuildConfig) (ctx : RealmContext) :
    GuildConfig × RealmContext × Nat :=
  match ctx.guild_config with
  | some cfg => (cfg, ctx, 0)
  | none =>
    (store ctx.guild_id, { ctx with guild_config := some (store ctx.guild_id) }, 1)

/-- Claim C9. On a fresh context (memo empty), the first `fetch_config` call
performs exactly one store fetch, memoizes the fetched config, and returns
it; calling again on the resulting context returns the same config with zero
fetches and leaves the context unchanged — so every further call is
identical and at most one store round-trip occurs per invocation context. -/
theorem c9_fetch_config_memoizes :
    ∀ (store : Nat → GuildConfig) (g : Nat),
      fetch_config store ⟨g, none⟩ =
        (store g, ⟨g, some (store g)⟩, 1) ∧
      fetch_config store ⟨g, some (store g)⟩ =
        (store g, ⟨g, some (store g)⟩, 0) := by
  intro store g
  exact ⟨rfl, rfl⟩

/-- An embed field as read by `embed_check`: `field.name` and `field.value`
(`none` models a falsy/absent attribute). -/
structure EmbedField where
  name : Option String
  value : Option String
deriving DecidableEq

/-- An embed as read by `embed_check`: optional title, description, author
name, footer text, and the list of fields. -/
structure Embed where
  title : Option String
  description : Option String
  author_name : Option String
  footer_text : Option String
  fields : List EmbedField
deriving DecidableEq

/-- Length of an optional string attribute; an absent attribute contributes
nothing. -/
def optLen : Option String → Nat
  | none => 0
  | some s => s.length

/-- Models `len(embed)` as computed by the platform library: the sum of the lengths
of the title, description, every field name and value, the footer text and
the author name. -/
def Embed.totalLen (e : Embed) : Nat :=
  optLen e.title + optLen e.description +
    (e.fields.map (fun f => optLen f.name + optLen f.value)).sum +
    optLen e.footer_text + optLen e.author_name

/-- The truthiness-guarded length test `if attr and len(attr) > n` used by
`embed_check`: an absent attribute never fails the test. -/
def attrTooLong (o : Option String) (n : Nat) : Bool :=
  match o with
  | none => false
  | some s => decide (s.length > n)

/-- Models `embed_check` (common/utils.py lines 90-113): sequential limit checks,
returning `false` at the first violated platform ceiling. -/
def embed_check (e : Embed) : Bool :=
  if e.totalLen > 6000 then false
  else if attrTooLong e.title 256 then false
  else if attrTooLong e.description 4096 then false
  else if attrTooLong e.author_name 256 then false
  else if attrTooLong e.footer_text 2048 then false
  else if e.fields.length > 25 then false
  else if e.fields.any (fun f =>
      attrTooLong f.name 1024 || attrTooLong f.value 2048) then false
  else true

theorem attrTooLong_false_iff (o : Option String) (n : Nat) :
    attrTooLong o n = false ↔ optLen o ≤ n := by
  cases o <;> simp [attrTooLong, optLen]

/-- A 4096-character description. -/
def desc4096 : String := String.mk (List.replicate 4096 'a')

/-- A 4097-character description. -/
def desc4097 : String := String.mk (List.replicate 4097 'a')

theorem desc4096_length : desc4096.length = 4096 := by
  have h : desc4096.length = (List.replicate 4096 'a').length := rfl
  rw [h, List.length_replicate]

theorem desc4097_length : desc4097.length = 4097 := by
  have h : desc4097.length = (List.replicate 4097 'a').length := rfl
  rw [h, List.length_replicate]

/-- Claim C10. `embed_check` returns `true` exactly when every platform size
ceiling is respected — total length ≤ 6000, title ≤ 256, description ≤ 4096,
author name ≤ 256, footer text ≤ 2048, at most 25 fields, each field name
≤ 1024 and each field value ≤ 2048 — and in particular an embed whose only
content is a 4097-character description is rejected while the same embed
with a 4096-character description is accepted. -/
theorem c10_embed_check_iff :
    (∀ e : Embed,
      embed_check e = true ↔
        (e.totalLen ≤ 6000 ∧ optLen e.title ≤ 256 ∧
          optLen e.description ≤ 4096 ∧ optLen e.author_name ≤ 256 ∧
          optLen e.footer_text ≤ 2048 ∧ e.fields.length ≤ 25 ∧
          ∀ f ∈ e.fields, optLen f.name ≤ 1024 ∧ optLen f.value ≤ 2048)) ∧
    embed_check ⟨none, some desc4096, none, none, []⟩ = true ∧
    embed_check ⟨none, some desc4097, none, none, []⟩ = false := by
  refine ⟨?_, ?_, ?_⟩
  · intro e
    constructor
    · intro h
      by_cases h1 : e.totalLen > 6000
      · simp [embed_check, h1] at h
      · by_cases h2 : attrTooLong e.title 256 = true
        · simp [embed_check, h1, h2] at h
        · by_cases h3 : attrTooLong e.description 4096 = true
          · simp [embed_check, h1, h2, h3] at h
          · by_cases h4 : attrTooLong e.author_name 256 = true
            · simp [embed_check, h1, h2, h3, h4] at h
            · by_cases h5 : attrTooLong e.footer_text 2048 = true
              · simp [embed_check, h1, h2, h3, h4, h5] at h
              · by_cases h6 : e.fields.length > 25
                · simp [embed_check, h1, h2, h3, h4, h5, h6] at h
                · by_cases h7 : e.fields.any (fun f =>
                      attrTooLong f.name 1024 || attrTooLong f.value 2048) = true
                  · simp [embed_check, h1, h2, h3, h4, h5, h6, h7] at h
                  · refine ⟨by omega,
                      (attrTooLong_false_iff _ _).1 (by simpa using h2),
                      (attrTooLong_false_iff _ _).1 (by simpa using h3),
                      (attrTooLong_false_iff _ _).1 (by simpa using h4),
                      (attrTooLong_false_iff _ _).1 (by simpa using h5),
                      by omega, ?_⟩
                    intro f hf
                    simp only [List.any_eq_true, not_exists, not_and,
                      Bool.not_eq_true] at h7
                    have := h7 f hf
                    simp only [Bool.or_eq_false_iff] at this
                    exact ⟨(attrTooLong_false_iff _ _).1 this.1,
                      (attrTooLong_false_iff _ _).1 this.2⟩
    · rintro ⟨h1, h2, h3, h4, h5, h6, h7⟩
      have g2 := (attrTooLong_false_iff e.title 256).2 h2
      have g3 := (attrTooLong_false_iff e.description 4096).2 h3
      have g4 := (attrTooLong_false_iff e.author_name 256).2 h4
      have g5 := (attrTooLong_false_iff e.footer_text 2048).2 h5
      have g7 : e.fields.any (fun f =>
          attrTooLong f.name 1024 || attrTooLong f.value 2048) = false := by
        simp only [List.any_eq_false]
        intro f hf
        have := h7 f hf
        simp [Bool.or_eq_false_iff, (attrTooLong_false_iff _ _).2 this.1,
          (attrTooLong_false_iff _ _).2 this.2]
      simp [embed_check, g2, g3, g4, g5, g7]
      omega
  · have htot : (⟨none, some desc4096, none, none, []⟩ : Embed).totalLen = 4096 := by
      simp [Embed.totalLen, optLen, desc4096_length]
    simp [embed_check, htot, attrTooLong, optLen, desc4096_length]
  · have hlong : attrTooLong (some desc4097) 4096 = true := by
      simp [attrTooLong, desc4097_length]
    have htot : (⟨none, some desc4097, none, none, []⟩ : Embed).totalLen = 4097 := by
      simp [Embed.totalLen, optLen, desc4097_length]
    simp [embed_check, htot, hlong, attrTooLong, optLen, desc4097_length]

/-- Python `str.splitlines` restricted to `"\n"` line terminators, with an
accumulator holding the (reversed) current line: each `'\n'` terminates a
line; a final segment is a line only if non-empty (so one trailing newline
produces no extra empty line). -/
def splitlinesAux : List Char → List Char → List (List Char)
  | [], acc => if acc.isEmpty then [] else [acc.reverse]
  | c :: cs, acc =>
    if c = '\n' then acc.reverse :: splitlinesAux cs []
    else splitlinesAux cs (c :: acc)

/-- Models `content.splitlines()` (for texts whose only line terminator is `"\n"`). -/
def splitlines (s : String) : List String :=
  (splitlinesAux s.data []).map String.mk

/-- Models the slicing `[l[x : x + n] for x in range(0, len(l), n)]`: successive chunks of `n`
elements.  (`n = 0` yields no chunks; it is never used and guards
termination — Python would raise on a zero step.) -/
def chunkEveryFuel (n : Nat) : Nat → List α → List (List α)
  | _, [] => []
  | 0, _ :: _ => []
  | fuel + 1, a :: t =>
    if n = 0 then []
    else (a :: t).take n :: chunkEveryFuel n fuel ((a :: t).drop n)

def chunkEvery (n : Nat) (l : List α) : List (List α) :=
  chunkEveryFuel n l.length l

theorem chunkEveryFuel_congr (n : Nat) :
    ∀ (fuel1 fuel2 : Nat) (l : List α), l.length ≤ fuel1 → l.length ≤ fuel2 →
      chunkEveryFuel n fuel1 l = chunkEveryFuel n fuel2 l := by
  intro fuel1
  induction fuel1 with
  | zero =>
    intro fuel2 l h1 h2
    rcases l with _ | ⟨a, t⟩
    · cases fuel2 <;> rfl
    · simp at h1
  | succ f1 ih =>
    intro fuel2 l h1 h2
    rcases l with _ | ⟨a, t⟩
    · cases fuel2 <;> rfl
    · rcases fuel2 with _ | f2
      · simp at h2
      · show (if n = 0 then [] else _) = (if n = 0 then [] else _)
        by_cases hn : n = 0
        · rw [if_pos hn, if_pos hn]
        · rw [if_neg hn, if_neg hn]
          congr 1
          have hd : ((a :: t).drop n).length ≤ f1 := by
            simp only [List.length_drop, List.length_cons]
            simp only [List.length_cons] at h1
            omega
          have hd2 : ((a :: t).drop n).length ≤ f2 := by
            simp only [List.length_drop, List.length_cons]
            simp only [List.length_cons] at h2
            omega
          exact ih f2 _ hd hd2

theorem chunkEvery_zero (l : List α) : chunkEvery 0 l = [] := by
  cases l <;> rfl

theorem chunkEvery_cons (n : Nat) (a : α) (t : List α) (hn : n ≠ 0) :
    chunkEvery n (a :: t) =
      (a :: t).take n :: chunkEvery n ((a :: t).drop n) := by
  show (if n = 0 then [] else _) = _
  rw [if_neg hn]
  congr 1
  exact chunkEveryFuel_congr n t.length ((a :: t).drop n).length _
    (by simp only [List.length_drop, List.length_cons]; omega) (le_refl _)

/-- Models `line_split` (common/utils.py lines 83-87): split by line into groups of
at most `split_by` (default 20) lines. -/
def line_split (content : String) (split_by : Nat := 20) : List (List String) :=
  chunkEvery split_by (splitlines content)

/-- Apply `f` to the last element of a list (`chunk[len(chunk) - 1] += ...`). -/
def modifyLastStr (f : String → String) : List String → List String
  | [] => []
  | [a] => [f a]
  | a :: b :: t => a :: modifyLastStr f (b :: t)

/-- The in-place mutation of error_handle's chunk loop (common/utils.py
lines 46-48): `chunks[i][0] = f"```py\n{chunks[i][0]}"` then
`chunks[i][len(chunks[i]) - 1] += "\n```"`. -/
def wrapChunk (chunk : List String) : List String :=
  modifyLastStr (fun s => s ++ "\n```") (chunk.modifyHead (fun s => "```py\n" ++ s))

/-- Models `"\n".join(chunk)`. -/
def join_nl : List String → String
  | [] => ""
  | [a] => a
  | a :: b :: t => a ++ "\n" ++ join_nl (b :: t)

/-- The non-transient path of `error_handle` (common/utils.py lines 41-57):
line-split the rendered error text into ≤ 20-line groups, wrap each group
into a code block, join each group with newlines, optionally prepend the
`Error on: {jump_url}` line, and (because `msg_to_owner` is called with
`split=False`) deliver exactly this list of chunks, in order. -/
def error_handle_delivered (error_str : String) (jump_url : Option String) :
    List String :=
  match jump_url with
  | some u => ("Error on: " ++ u) :: (line_split error_str).map (fun c => join_nl (wrapChunk c))
  | none => (line_split error_str).map (fun c => join_nl (wrapChunk c))

/-- Number of lines of a delivered chunk, counted the way Python
`splitlines` counts them. -/
def lineCount (s : String) : Nat := (splitlines s).length

/-- Models `"\n".join` at the character-list level. -/
def joinNLChar : List (List Char) → List Char
  | [] => []
  | [a] => a
  | a :: b :: t => a ++ '\n' :: joinNLChar (b :: t)

/-- Remove a single trailing `'\n'`, if any. -/
def removeTrailing (cs : List Char) : List Char :=
  if cs.getLast? = some '\n' then cs.dropLast else cs

/-- Remove the inserted code-block delimiters from a delivered chunk: drop
the six characters of the opener `"```py\n"` and the four characters of the
closer `"\n```"`. -/
def stripDelims (s : String) : String :=
  String.mk ((s.data.drop 6).take ((s.data.drop 6).length - 4))

/-- Joining the delivered chunks, in delivery order, after removing the
inserted code-block delimiters. -/
def rejoined (error_str : String) : String :=
  join_nl ((error_handle_delivered error_str none).map stripDelims)

theorem splitlinesAux_no_nl (l : List Char) (hl : ∀ c ∈ l, c ≠ '\n') :
    ∀ (rest acc : List Char),
      splitlinesAux (l ++ rest) acc = splitlinesAux rest (l.reverse ++ acc) := by
  induction l with
  | nil => intro rest acc; simp
  | cons c t ih =>
    intro rest acc
    have hc : c ≠ '\n' := hl c (List.mem_cons_self c t)
    have ht : ∀ x ∈ t, x ≠ '\n' := fun x hx => hl x (List.mem_cons_of_mem c hx)
    simp only [List.cons_append, splitlinesAux, if_neg hc, List.append_eq]
    rw [ih ht rest (c :: acc)]
    simp

theorem splitlinesAux_nl (rest acc : List Char) :
    splitlinesAux ('\n' :: rest) acc = acc.reverse :: splitlinesAux rest [] := by
  simp [splitlinesAux]

theorem splitlinesAux_ne_nil (cs : List Char) (hcs : cs ≠ []) (acc : List Char) :
    splitlinesAux cs acc ≠ [] := by
  induction cs generalizing acc with
  | nil => exact absurd rfl hcs
  | cons c t ih =>
    by_cases hc : c = '\n'
    · subst hc
      simp [splitlinesAux]
    · simp only [splitlinesAux, if_neg hc]
      rcases t with _ | ⟨d, t'⟩
      · simp [splitlinesAux]
      · exact ih (by simp) (c :: acc)

theorem splitlinesAux_mem_no_nl (cs : List Char) :
    ∀ (acc : List Char), (∀ c ∈ acc, c ≠ '\n') →
      ∀ l ∈ splitlinesAux cs acc, ∀ c ∈ l, c ≠ '\n' := by
  induction cs with
  | nil =>
    intro acc hacc l hl
    simp only [splitlinesAux] at hl
    by_cases h : acc.isEmpty
    · simp [h] at hl
    · simp only [h, if_neg] at hl
      simp only [Bool.not_eq_true] at h
      rcases (List.mem_singleton).1 (by simpa using hl) with rfl
      intro c hc
      exact hacc c (List.mem_reverse.1 hc)
  | cons c t ih =>
    intro acc hacc l hl
    by_cases hc : c = '\n'
    · subst hc
      rw [splitlinesAux_nl] at hl
      rcases List.mem_cons.1 hl with rfl | hl2
      · intro x hx
        exact hacc x (List.mem_reverse.1 hx)
      · exact ih [] (by simp) l hl2
    · simp only [splitlinesAux, if_neg hc] at hl
      refine ih (c :: acc) ?_ l hl
      intro x hx
      rcases List.mem_cons.1 hx with rfl | hx2
      · exact hc
      · exact hacc x hx2

theorem chunkEvery_mem (n : Nat) (l G : List α) (hG : G ∈ chunkEvery n l) :
    G ≠ [] ∧ G.length ≤ n ∧ ∀ x ∈ G, x ∈ l := by
  match n, l with
  | _, [] => simp [chunkEvery, chunkEveryFuel] at hG
  | 0, a :: t => rw [chunkEvery_zero] at hG; simp at hG
  | n + 1, a :: t =>
    rw [chunkEvery_cons (n + 1) a t (by omega)] at hG
    rcases List.mem_cons.1 hG with rfl | hG2
    · refine ⟨by simp, List.length_take_le _ _, fun x hx => List.take_subset _ _ hx⟩
    · have ih := chunkEvery_mem (n + 1) ((a :: t).drop (n + 1)) G hG2
      exact ⟨ih.1, ih.2.1, fun x hx => List.drop_subset _ _ (ih.2.2 x hx)⟩
termination_by l.length
decreasing_by
  simp only [List.length_drop, List.length_cons]
  omega

theorem chunkEvery_flatten (n : Nat) (l : List α) :
    0 < n → (chunkEvery n l).flatten = l := by
  intro hn
  match n, l with
  | _, [] => simp [chunkEvery, chunkEveryFuel]
  | 0, a :: t => omega
  | n + 1, a :: t =>
    rw [chunkEvery_cons (n + 1) a t (by omega)]
    simp only [List.flatten_cons]
    rw [chunkEvery_flatten (n + 1) ((a :: t).drop (n + 1)) (by omega)]
    exact List.take_append_drop _ _
termination_by l.length
decreasing_by
  simp only [List.length_drop, List.length_cons]
  omega

theorem join_nl_cons_of_ne (a : String) (l : List String) (hl : l ≠ []) :
    join_nl (a :: l) = a ++ "\n" ++ join_nl l := by
  rcases l with _ | ⟨b, t⟩
  · exact absurd rfl hl
  · rfl

theorem joinNLChar_cons_of_ne (a : List Char) (l : List (List Char)) (hl : l ≠ []) :
    joinNLChar (a :: l) = a ++ '\n' :: joinNLChar l := by
  rcases l with _ | ⟨b, t⟩
  · exact absurd rfl hl
  · rfl

theorem join_nl_data (G : List String) :
    (join_nl G).data = joinNLChar (G.map String.data) := by
  match G with
  | [] => rfl
  | [a] => rfl
  | a :: b :: t =>
    show (a ++ "\n" ++ join_nl (b :: t)).data = _
    rw [String.data_append, String.data_append, join_nl_data (b :: t)]
    simp only [List.map_cons]
    rw [joinNLChar_cons_of_ne a.data (b.data :: t.map String.data) (by simp)]
    simp

theorem modifyLastStr_append (G : List String) (suf : String) (hG : G ≠ []) :
    join_nl (modifyLastStr (fun s => s ++ suf) G) = join_nl G ++ suf := by
  match G with
  | [] => exact absurd rfl hG
  | [a] => rfl
  | a :: b :: t =>
    have h1 : modifyLastStr (fun s => s ++ suf) (a :: b :: t) =
        a :: modifyLastStr (fun s => s ++ suf) (b :: t) := rfl
    have hne : modifyLastStr (fun s => s ++ suf) (b :: t) ≠ [] := by
      rcases t with _ | ⟨d, t'⟩ <;> simp [modifyLastStr]
    have h2 : join_nl (a :: b :: t) = a ++ "\n" ++ join_nl (b :: t) := rfl
    rw [h1, join_nl_cons_of_ne a _ hne, modifyLastStr_append (b :: t) suf (by simp), h2]
    simp [String.append_assoc]

theorem wrapChunk_join (G : List String) (hG : G ≠ []) :
    join_nl (wrapChunk G) = "```py\n" ++ join_nl G ++ "\n```" := by
  match G with
  | [] => exact absurd rfl hG
  | [a] =>
    show join_nl [("```py\n" ++ a) ++ "\n```"] = _
    simp [join_nl, String.append_assoc]
  | a :: b :: t =>
    have h1 : wrapChunk (a :: b :: t) =
        ("```py\n" ++ a) :: modifyLastStr (fun s => s ++ "\n```") (b :: t) := rfl
    have hne : modifyLastStr (fun s => s ++ "\n```") (b :: t) ≠ [] := by
      rcases t with _ | ⟨d, t'⟩ <;> simp [modifyLastStr]
    have h2 : join_nl (a :: b :: t) = a ++ "\n" ++ join_nl (b :: t) := rfl
    rw [h1, join_nl_cons_of_ne _ _ hne, modifyLastStr_append (b :: t) _ (by simp), h2]
    simp [String.append_assoc]

theorem join_nl_length_le (G : List String) (hG : G ≠ [])
    (hm : ∀ s ∈ G, s.length ≤ 96) :
    (join_nl G).length ≤ 97 * G.length - 1 := by
  match G with
  | [] => exact absurd rfl hG
  | [a] =>
    have := hm a (by simp)
    simp only [join_nl, List.length_singleton]
    omega
  | a :: b :: t =>
    have ih := join_nl_length_le (b :: t) (by simp)
      (fun s hs => hm s (List.mem_cons_of_mem a hs))
    have ha := hm a (List.mem_cons_self a _)
    have h2 : join_nl (a :: b :: t) = a ++ "\n" ++ join_nl (b :: t) := rfl
    have hn : ("\n" : String).length = 1 := rfl
    rw [h2, String.length_append, String.length_append, hn]
    have hlen : (a :: b :: t).length = (b :: t).length + 1 := rfl
    rw [hlen]
    have hk : 1 ≤ (b :: t).length := by simp
    omega

theorem splitlines_mem_no_nl (txt s : String) (hs : s ∈ splitlines txt) :
    ∀ c ∈ s.data, c ≠ '\n' := by
  unfold splitlines at hs
  obtain ⟨l, hl, rfl⟩ := List.mem_map.1 hs
  simpa using splitlinesAux_mem_no_nl txt.data [] (by simp) l hl

theorem lineCount_no_nl (s : String) (hs : s.data ≠ [])
    (hnl : ∀ c ∈ s.data, c ≠ '\n') : lineCount s = 1 := by
  unfold lineCount splitlines
  have h := splitlinesAux_no_nl s.data hnl [] []
  rw [List.append_nil] at h
  rw [h]
  have : (s.data.reverse ++ []).isEmpty = false := by
    simp [List.isEmpty_iff, hs]
  simp [splitlinesAux, this, hs]

theorem splitlinesAux_joinNLChar (Gd : List (List Char)) (rest : List Char)
    (hG : Gd ≠ []) (hnl : ∀ l ∈ Gd, ∀ c ∈ l, c ≠ '\n') :
    splitlinesAux (joinNLChar Gd ++ '\n' :: rest) [] =
      Gd ++ splitlinesAux rest [] := by
  match Gd with
  | [] => exact absurd rfl hG
  | [a] =>
    have h1 : joinNLChar [a] = a := rfl
    rw [h1, splitlinesAux_no_nl a (hnl a (by simp)) ('\n' :: rest) [],
      splitlinesAux_nl]
    simp
  | a :: b :: t =>
    have h1 := joinNLChar_cons_of_ne a (b :: t) (by simp)
    have h2 : (a ++ '\n' :: joinNLChar (b :: t)) ++ '\n' :: rest =
        a ++ '\n' :: (joinNLChar (b :: t) ++ '\n' :: rest) := by simp
    rw [h1, h2, splitlinesAux_no_nl a (hnl a (by simp)) _ [], splitlinesAux_nl]
    rw [splitlinesAux_joinNLChar (b :: t) rest (by simp)
      (fun l hl => hnl l (List.mem_cons_of_mem a hl))]
    simp

theorem lineCount_wrapped (G : List String) (hG : G ≠ [])
    (hnl : ∀ s ∈ G, ∀ c ∈ s.data, c ≠ '\n') :
    lineCount (join_nl (wrapChunk G)) = G.length + 2 := by
  have hw := wrapChunk_join G hG
  have hdata : (join_nl (wrapChunk G)).data =
      ['`', '`', '`', 'p', 'y'] ++ '\n' ::
        ((join_nl G).data ++ '\n' :: ['`', '`', '`']) := by
    rw [hw, String.data_append, String.data_append]
    have hop : ("```py\n" : String).data = ['`', '`', '`', 'p', 'y', '\n'] := rfl
    have hcl : ("\n```" : String).data = ['\n', '`', '`', '`'] := rfl
    rw [hop, hcl]
    simp
  unfold lineCount splitlines
  rw [hdata, splitlinesAux_no_nl ['`', '`', '`', 'p', 'y'] (by decide) _ [],
    splitlinesAux_nl, join_nl_data,
    splitlinesAux_joinNLChar (G.map String.data) ['`', '`', '`']
      (by simpa using hG)
      (by
        intro l hl
        obtain ⟨s, hs, rfl⟩ := List.mem_map.1 hl
        exact hnl s hs)]
  have hbt : splitlinesAux ['`', '`', '`'] [] = [['`', '`', '`']] := rfl
  rw [hbt]
  simp

theorem line_split_eq (content : String) :
    line_split content = chunkEvery 20 (splitlines content) := rfl

theorem wrapped_chunk_bounds (error_str : String)
    (hlines : ∀ s ∈ splitlines error_str, s.length ≤ 96) :
    ∀ ch ∈ (line_split error_str).map (fun c => join_nl (wrapChunk c)),
      ch.length ≤ 1950 ∧ lineCount ch ≤ 22 := by
  intro ch hch
  obtain ⟨G, hG, rfl⟩ := List.mem_map.1 hch
  rw [line_split_eq] at hG
  obtain ⟨hGne, hGlen, hGsub⟩ := chunkEvery_mem 20 (splitlines error_str) G hG
  have hGlines : ∀ s ∈ G, s.length ≤ 96 := fun s hs => hlines s (hGsub s hs)
  have hGnl : ∀ s ∈ G, ∀ c ∈ s.data, c ≠ '\n' :=
    fun s hs => splitlines_mem_no_nl error_str s (hGsub s hs)
  constructor
  · rw [wrapChunk_join G hGne, String.length_append, String.length_append]
    have hjl := join_nl_length_le G hGne hGlines
    have hop : ("```py\n" : String).length = 6 := rfl
    have hcl : ("\n```" : String).length = 4 := rfl
    rw [hop, hcl]
    omega
  · rw [lineCount_wrapped G hGne hGnl]
    omega

/-- Claim C3 amended. Every chunk delivered by the non-transient path of
`error_handle` has line count at most 22 (at most 20 lines of the rendered
text plus the code-block opener and closer lines); and — because the
`split=False` delivery performs no 1950-character re-splitting — the
1950-character bound holds only under an assumption on the input: it does
hold whenever every line of the rendered text has at most 96 characters
(and, when a jump-url line is prepended, the url has at most 1940
characters and no newline). -/
theorem c3_chunk_bounds (error_str : String) (jump_url : Option String)
    (hlines : ∀ s ∈ splitlines error_str, s.length ≤ 96)
    (hurl : ∀ u, jump_url = some u →
      u.length ≤ 1940 ∧ ∀ c ∈ u.data, c ≠ '\n') :
    ∀ chunk ∈ error_handle_delivered error_str jump_url,
      chunk.length ≤ 1950 ∧ lineCount chunk ≤ 22 := by
  match jump_url with
  | none =>
    intro chunk hchunk
    exact wrapped_chunk_bounds error_str hlines chunk hchunk
  | some u =>
    intro chunk hchunk
    rcases List.mem_cons.1 hchunk with rfl | hchunk2
    · obtain ⟨hulen, hunl⟩ := hurl u rfl
      constructor
      · rw [String.length_append]
        have h10 : ("Error on: " : String).length = 10 := rfl
        rw [h10]
        omega
      · have hdata : ("Error on: " ++ u).data = ("Error on: " : String).data ++ u.data :=
          String.data_append _ _
        have hne : ("Error on: " ++ u).data ≠ [] := by
          rw [hdata]
          simp [show ("Error on: " : String).data ≠ [] from by decide]
        have hnl : ∀ c ∈ ("Error on: " ++ u).data, c ≠ '\n' := by
          intro c hc
          rw [hdata] at hc
          rcases List.mem_append.1 hc with h | h
          · have hall : ∀ c ∈ ("Error on: " : String).data, c ≠ '\n' := by decide
            exact hall c h
          · exact hunl c h
        rw [lineCount_no_nl _ hne hnl]
        omega
    · exact wrapped_chunk_bounds error_str hlines chunk hchunk2

theorem join_nl_length_exact (G : List String) (hG : G ≠ []) :
    (join_nl G).length = (G.map String.length).sum + (G.length - 1) := by
  match G with
  | [] => exact absurd rfl hG
  | [a] => simp [join_nl]
  | a :: b :: t =>
    have ih := join_nl_length_exact (b :: t) (by simp)
    have h2 : join_nl (a :: b :: t) = a ++ "\n" ++ join_nl (b :: t) := rfl
    have hn : ("\n" : String).length = 1 := rfl
    rw [h2, String.length_append, String.length_append, hn, ih]
    simp only [List.map_cons, List.sum_cons, List.length_cons]
    omega

theorem splitlinesAux_joinNLChar_total (Gd : List (List Char)) (hG : Gd ≠ [])
    (hnl : ∀ l ∈ Gd, ∀ c ∈ l, c ≠ '\n') (hne : ∀ l ∈ Gd, l ≠ []) :
    splitlinesAux (joinNLChar Gd) [] = Gd := by
  match Gd with
  | [] => exact absurd rfl hG
  | [a] =>
    have h1 : joinNLChar [a] = a := rfl
    rw [h1]
    have h2 := splitlinesAux_no_nl a (hnl a (by simp)) [] []
    rw [List.append_nil] at h2
    rw [h2]
    have hne' : a ≠ [] := hne a (by simp)
    have hrev : (a.reverse ++ []).isEmpty = false := by
      simp [List.isEmpty_iff, hne']
    simp [splitlinesAux, hrev, hne']
  | a :: b :: t =>
    rw [joinNLChar_cons_of_ne a (b :: t) (by simp),
      splitlinesAux_no_nl a (hnl a (by simp)) _ [], splitlinesAux_nl,
      splitlinesAux_joinNLChar_total (b :: t) (by simp)
        (fun l hl => hnl l (List.mem_cons_of_mem a hl))
        (fun l hl => hne l (List.mem_cons_of_mem a hl))]
    simp

theorem splitlines_join_nl (L : List String) (hL : L ≠ [])
    (hnl : ∀ s ∈ L, ∀ c ∈ s.data, c ≠ '\n') (hne : ∀ s ∈ L, s.data ≠ []) :
    splitlines (join_nl L) = L := by
  unfold splitlines
  rw [join_nl_data,
    splitlinesAux_joinNLChar_total (L.map String.data) (by simpa using hL)
      (by
        intro l hl
        obtain ⟨s, hs, rfl⟩ := List.mem_map.1 hl
        exact hnl s hs)
      (by
        intro l hl
        obtain ⟨s, hs, rfl⟩ := List.mem_map.1 hl
        exact hne s hs)]
  rw [List.map_map]
  have hmk : ∀ s : String, String.mk s.data = s := fun s => by cases s; rfl
  have hcomp : String.mk ∘ String.data = id := funext hmk
  rw [hcomp, List.map_id]

/-- A 100-character line. -/
def line100 : String := String.mk (List.replicate 100 'a')

/-- A rendered error text of exactly 20 lines, each of 100 characters. -/
def c3txt : String := join_nl (List.replicate 20 line100)

theorem line100_no_nl : ∀ c ∈ line100.data, c ≠ '\n' := by
  intro c hc
  have : c = 'a' := List.eq_of_mem_replicate hc
  subst this
  decide

theorem line100_length : line100.length = 100 := by
  have h : line100.length = (List.replicate 100 'a').length := rfl
  rw [h, List.length_replicate]

theorem splitlines_c3txt : splitlines c3txt = List.replicate 20 line100 := by
  unfold c3txt
  refine splitlines_join_nl _ (by simp) ?_ ?_
  · intro s hs
    have : s = line100 := List.eq_of_mem_replicate hs
    subst this
    exact line100_no_nl
  · intro s hs
    have : s = line100 := List.eq_of_mem_replicate hs
    subst this
    have : line100.data = List.replicate 100 'a' := rfl
    rw [this]
    simp

theorem line_split_c3txt :
    line_split c3txt = [List.replicate 20 line100] := by
  rw [line_split_eq, splitlines_c3txt]
  have h20 : List.replicate 20 line100 = line100 :: List.replicate 19 line100 := rfl
  rw [h20, chunkEvery_cons 20 _ _ (by omega), ← h20, List.take_replicate,
    List.drop_replicate]
  rfl

/-- Claim C3 counterexample. For the 20-line, 100-characters-per-line rendered
text `c3txt`, the non-transient path delivers exactly one chunk, and that
chunk has 2029 characters (> 1950: `split=False` performs no 1950-character
re-splitting) and 22 lines (> 20: the code-block delimiters add two lines).
This falsifies the claimed per-chunk bounds. -/
theorem c3_counterexample :
    error_handle_delivered c3txt none =
      [join_nl (wrapChunk (List.replicate 20 line100))] ∧
    (join_nl (wrapChunk (List.replicate 20 line100))).length = 2029 ∧
    lineCount (join_nl (wrapChunk (List.replicate 20 line100))) = 22 := by
  have hmem : ∀ s ∈ List.replicate 20 line100, ∀ c ∈ s.data, c ≠ '\n' := by
    intro s hs
    have : s = line100 := List.eq_of_mem_replicate hs
    subst this
    exact line100_no_nl
  refine ⟨?_, ?_, ?_⟩
  · show (line_split c3txt).map (fun c => join_nl (wrapChunk c)) = _
    rw [line_split_c3txt]
    rfl
  · rw [wrapChunk_join _ (by simp), String.length_append, String.length_append,
      join_nl_length_exact _ (by simp), List.map_replicate, line100_length]
    have hsum : (List.replicate 20 100).sum = 2000 := by
      simp [List.sum_replicate]
    rw [hsum]
    rfl
  · rw [lineCount_wrapped _ (by simp) hmem, List.length_replicate]

/-- Witness for the amended C3 at the one-line text `"boom"` with no jump
url: the single delivered chunk obeys both amended bounds. -/
theorem c3_chunk_bounds_witness :
    ("```py\nboom\n```" : String).length ≤ 1950 ∧
      lineCount "```py\nboom\n```" ≤ 22 :=
  c3_chunk_bounds "boom" none (by decide) (fun u hu => by cases hu)
    "```py\nboom\n```" (by decide)

theorem removeTrailing_cons (c : Char) (l : List Char) (hl : l ≠ []) :
    removeTrailing (c :: l) = c :: removeTrailing l := by
  unfold removeTrailing
  rcases l with _ | ⟨b, t⟩
  · exact absurd rfl hl
  · rw [List.getLast?_cons_cons]
    by_cases h : (b :: t).getLast? = some '\n'
    · rw [if_pos h, if_pos h, List.dropLast_cons₂]
    · rw [if_neg h, if_neg h]

theorem joinNLChar_splitlinesAux (cs : List Char) :
    ∀ acc, joinNLChar (splitlinesAux cs acc) =
      acc.reverse ++ removeTrailing cs := by
  induction cs with
  | nil =>
    intro acc
    show joinNLChar (if acc.isEmpty then [] else [acc.reverse]) =
      acc.reverse ++ removeTrailing []
    have h0 : removeTrailing [] = [] := rfl
    by_cases h : acc.isEmpty
    · rw [if_pos h]
      have : acc = [] := List.isEmpty_iff.1 h
      subst this
      rfl
    · rw [if_neg h, h0, List.append_nil]
      rfl
  | cons c t ih =>
    intro acc
    by_cases hc : c = '\n'
    · subst hc
      rw [splitlinesAux_nl]
      by_cases ht : t = []
      · subst ht
        have h1 : splitlinesAux ([] : List Char) [] = [] := rfl
        rw [h1]
        have h2 : removeTrailing ['\n'] = [] := rfl
        rw [h2, List.append_nil]
        rfl
      · have hne := splitlinesAux_ne_nil t ht []
        rw [joinNLChar_cons_of_ne _ _ hne, ih [], List.reverse_nil,
          List.nil_append, removeTrailing_cons '\n' t ht]
    · simp only [splitlinesAux, if_neg hc]
      rw [ih (c :: acc)]
      by_cases ht : t = []
      · subst ht
        have h2 : removeTrailing [c] = [c] := by
          unfold removeTrailing
          rw [show ([c] : List Char).getLast? = some c from rfl,
            if_neg (by simpa using hc)]
        have h0 : removeTrailing ([] : List Char) = [] := rfl
        rw [h2, h0, List.append_nil]
        simp
      · rw [removeTrailing_cons c t ht]
        simp

theorem stripDelims_wrapped (m : String) :
    stripDelims ("```py\n" ++ m ++ "\n```") = m := by
  unfold stripDelims
  have hdata : ("```py\n" ++ m ++ "\n```").data =
      ['`', '`', '`', 'p', 'y', '\n'] ++ (m.data ++ ['\n', '`', '`', '`']) := by
    rw [String.data_append, String.data_append]
    have hop : ("```py\n" : String).data = ['`', '`', '`', 'p', 'y', '\n'] := rfl
    have hcl : ("\n```" : String).data = ['\n', '`', '`', '`'] := rfl
    rw [hop, hcl, List.append_assoc]
  rw [hdata]
  have hdrop : (['`', '`', '`', 'p', 'y', '\n'] ++
      (m.data ++ ['\n', '`', '`', '`'])).drop 6 =
      m.data ++ ['\n', '`', '`', '`'] := rfl
  rw [hdrop]
  have hlen : (m.data ++ ['\n', '`', '`', '`']).length - 4 = m.data.length := by
    simp [List.length_append]
  rw [hlen, List.take_left]

theorem join_nl_append (A B : List String) (hA : A ≠ []) (hB : B ≠ []) :
    join_nl (A ++ B) = join_nl A ++ "\n" ++ join_nl B := by
  match A with
  | [] => exact absurd rfl hA
  | [a] =>
    rw [show ([a] ++ B) = a :: B from rfl, join_nl_cons_of_ne a B hB]
    rfl
  | a :: b :: t =>
    have ih := join_nl_append (b :: t) B (by simp) hB
    rw [show ((a :: b :: t) ++ B) = a :: ((b :: t) ++ B) from rfl,
      join_nl_cons_of_ne a _ (by simp), ih,
      join_nl_cons_of_ne a (b :: t) (by simp)]
    simp [String.append_assoc]

theorem join_nl_map_flatten (Gs : List (List String)) (h : ∀ G ∈ Gs, G ≠ []) :
    join_nl (Gs.map join_nl) = join_nl Gs.flatten := by
  match Gs with
  | [] => rfl
  | [G] =>
    show join_nl [join_nl G] = join_nl (G ++ [])
    rw [List.append_nil]
    rfl
  | G1 :: G2 :: t =>
    have ih := join_nl_map_flatten (G2 :: t)
      (fun G hG => h G (List.mem_cons_of_mem G1 hG))
    have hB : (G2 :: t).flatten ≠ [] := by
      have hf : (G2 :: t).flatten = G2 ++ t.flatten := rfl
      rw [hf]
      simp [h G2 (by simp)]
    rw [List.map_cons, join_nl_cons_of_ne _ _ (by simp), ih,
      show (G1 :: G2 :: t).flatten = G1 ++ (G2 :: t).flatten from rfl,
      join_nl_append G1 ((G2 :: t).flatten) (h G1 (by simp)) hB]

theorem stripDelims_delivered (txt : String) :
    (error_handle_delivered txt none).map stripDelims =
      (line_split txt).map join_nl := by
  show ((line_split txt).map (fun c => join_nl (wrapChunk c))).map stripDelims = _
  rw [List.map_map]
  refine List.map_congr_left ?_
  intro G hG
  have hGne := (chunkEvery_mem 20 (splitlines txt) G
    (by rwa [line_split_eq] at hG)).1
  show stripDelims (join_nl (wrapChunk G)) = join_nl G
  rw [wrapChunk_join G hGne, stripDelims_wrapped]

/-- Claim C8 amended. Joining the delivered chunks in delivery order, after
removing the inserted code-block opener and closer delimiters, reproduces
the original rendered text *with a single trailing newline (if any)
removed*: it equals the original exactly when the text does not end in a
newline (Python `splitlines` drops the final empty segment, so one trailing
line terminator is not recoverable). -/
theorem c8_rejoin (txt : String) :
    rejoined txt = String.mk (removeTrailing txt.data) ∧
    (txt.data.getLast? ≠ some '\n' → rejoined txt = txt) := by
  have hmain : rejoined txt = String.mk (removeTrailing txt.data) := by
    unfold rejoined
    rw [stripDelims_delivered txt, line_split_eq,
      join_nl_map_flatten _
        (fun G hG => (chunkEvery_mem 20 (splitlines txt) G hG).1),
      chunkEvery_flatten 20 _ (by omega)]
    apply String.ext
    rw [join_nl_data]
    unfold splitlines
    rw [List.map_map]
    have hid : String.data ∘ String.mk = id := funext (fun l => rfl)
    rw [hid, List.map_id, joinNLChar_splitlinesAux txt.data []]
    simp
  refine ⟨hmain, ?_⟩
  intro hlast
  rw [hmain]
  unfold removeTrailing
  rw [if_neg hlast]

/-- Witness for the amended C8 at the text `"a"` (no trailing newline):
the round trip through chunking, wrapping and delimiter removal is exact. -/
theorem c8_rejoin_witness : rejoined "a" = "a" :=
  (c8_rejoin "a").2 (by decide)

/-- Claim C8 counterexample. For the rendered text `"a\n"` (every traceback
rendering ends with a newline), the single delivered chunk is
`"```py\na\n```"`; removing the inserted opener `"```py\n"` and closer
`"\n```"` and re-joining yields `"a"`, not the original `"a\n"` — the
trailing line terminator is lost. -/
theorem c8_counterexample :
    rejoined "a\n" = "a" ∧ ("a" : String) ≠ "a\n" := by
  constructor
  · decide
  · decide

/-- Witness for C10 at a concrete embed: a short title and one small field
pass every ceiling, so `embed_check` accepts. -/
theorem c10_embed_check_iff_witness :
    embed_check ⟨some "hello", none, none, none, [⟨some "n", some "v"⟩]⟩ = true :=
  (c10_embed_check_iff.1 ⟨some "hello", none, none, none, [⟨some "n", some "v"⟩]⟩).2
    ⟨by decide, by decide, by decide, by decide, by decide, by decide, by decide⟩
